import Mathlib

/-!
Verification development for the better-context repository (btca).

Strings from the TypeScript source are modelled as `List Char`; JavaScript
string comparison (used by `Array.prototype.sort()`) is UTF-16
code-unit-lexicographic, which on the ASCII/BMP names appearing in this
program coincides with the lexicographic `LinearOrder (List Char)` instance.

Source files embedded here:
* src/apps/cli/src/lib/utils/query.ts  — parseQuery, getWorkspaceKey
* src/unnamed/part_000                 — validateProviderAndModel
* src/unnamed/part_004 (workspace.ts)  — ensureWorkspace
* src/unnamed/part_006 (oc.ts)         — getOpencodeInstanceForWorkspace,
                                         streamSessionEvents, createSession
-/

/-- Name type: a JavaScript string, modelled as its list of characters. -/
abbrev JStr := List Char

/-- Character class of the mention regex in query.ts line 22:
the set [a-zA-Z0-9_-], by code point. -/
def isMentionChar (c : Char) : Bool :=
  decide ((97 ≤ c.toNat ∧ c.toNat ≤ 122) ∨ (65 ≤ c.toNat ∧ c.toNat ≤ 90) ∨
    (48 ≤ c.toNat ∧ c.toNat ≤ 57) ∨ c.toNat = 95 ∨ c.toNat = 45)

/-- JavaScript regex whitespace class backslash-s: space, tab, line
terminators, and the Unicode space separators, by code point. -/
def isJsWhitespace (c : Char) : Bool :=
  decide (c.toNat = 32 ∨ c.toNat = 9 ∨ c.toNat = 10 ∨ c.toNat = 11 ∨ c.toNat = 12 ∨
    c.toNat = 13 ∨ c.toNat = 0xa0 ∨ c.toNat = 0x1680 ∨
    (0x2000 ≤ c.toNat ∧ c.toNat ≤ 0x200a) ∨ c.toNat = 0x2028 ∨ c.toNat = 0x2029 ∨
    c.toNat = 0x202f ∨ c.toNat = 0x205f ∨ c.toNat = 0x3000 ∨ c.toNat = 0xfeff)

/-- One-character lookahead: does the remaining input start with a
mention-class character? -/
def headIsMention : JStr → Bool
  | [] => false
  | d :: _ => isMentionChar d

/-- Embedding of input.replace(mentionRegex, '') in query.ts line 33 as a
one-pass scanner. A match of the regex (at-sign followed by one or more
mention-class characters, leftmost, greedy, non-overlapping) is deleted:
the at-sign is deleted when the next character is mention-class (start of a
match), and with inRun set the following mention-class run is deleted. -/
def stripMentionsAux (inRun : Bool) : JStr → JStr
  | [] => []
  | c :: rest =>
    if inRun && isMentionChar c then stripMentionsAux true rest
    else if c = '@' && headIsMention rest then stripMentionsAux true rest
    else c :: stripMentionsAux false rest

/-- Deletion of every mention-regex match (query.ts line 33, first replace). -/
def stripMentions (l : JStr) : JStr := stripMentionsAux false l

/-- Captured groups of the mention-regex exec loop in query.ts lines 26-30,
in match order, by the same one-pass scan; acc holds the reversed characters
of the currently open captured group. -/
def extractMentionsAux (acc : Option JStr) : JStr → List JStr
  | [] => match acc with | some g => [g.reverse] | none => []
  | c :: rest =>
    match acc with
    | some g =>
      if isMentionChar c then extractMentionsAux (some (c :: g)) rest
      else if c = '@' && headIsMention rest then g.reverse :: extractMentionsAux (some []) rest
      else g.reverse :: extractMentionsAux none rest
    | none =>
      if c = '@' && headIsMention rest then extractMentionsAux (some []) rest
      else extractMentionsAux none rest

/-- All captured groups of the mention regex over the input, in match order. -/
def extractMentions (l : JStr) : List JStr := extractMentionsAux none l

/-- Embedding of the whitespace-run replace in query.ts line 33: every
maximal run of whitespace becomes a single space (prevWs records whether the
previous character was part of a whitespace run). -/
def collapseWhitespaceAux (prevWs : Bool) : JStr → JStr
  | [] => []
  | c :: rest =>
    if isJsWhitespace c then
      if prevWs then collapseWhitespaceAux true rest
      else ' ' :: collapseWhitespaceAux true rest
    else c :: collapseWhitespaceAux false rest

/-- Replacement of whitespace runs by single spaces (query.ts line 33). -/
def collapseWhitespace (l : JStr) : JStr := collapseWhitespaceAux false l

/-- Embedding of String.prototype.trim(): whitespace removed from both ends. -/
def jsTrim (l : JStr) : JStr :=
  ((l.dropWhile isJsWhitespace).reverse.dropWhile isJsWhitespace).reverse

/-- The cleaned prompt of parseQuery (query.ts line 33): mentions stripped,
whitespace runs collapsed, result trimmed. -/
def parseQueryQuery (l : JStr) : JStr :=
  jsTrim (collapseWhitespace (stripMentions l))

/-- JavaScript Set-based dedup of query.ts line 36: keep the first occurrence
of each element, preserving insertion order. -/
def dedupFirst : List JStr → List JStr :=
  go []
where
  go (seen : List JStr) : List JStr → List JStr
    | [] => []
    | x :: xs => if x ∈ seen then go seen xs else x :: go (x :: seen) xs

/-- JavaScript Array.prototype.sort() on names: lexicographic by code unit. -/
def sortNames (l : List JStr) : List JStr :=
  List.insertionSort (· ≤ ·) l

/-- The repos component of parseQuery (query.ts lines 26-36): collected
captured groups, each lowercased (Char.toLower is exactly the ASCII-range
lowering that String.prototype.toLowerCase performs on the mention-class
characters), then deduplicated and sorted. -/
def parseQueryRepos (l : JStr) : List JStr :=
  sortNames (dedupFirst ((extractMentions l).map (fun m => m.map Char.toLower)))

/-- Result shape of parseQuery (interface ParsedQuery in query.ts). -/
structure ParsedQuery where
  repos : List JStr
  query : JStr
deriving DecidableEq, Repr

/-- Embedding of parseQuery (query.ts lines 20-42). -/
def parseQuery (input : JStr) : ParsedQuery :=
  ⟨parseQueryRepos input, parseQueryQuery input⟩

/-- Embedding of getWorkspaceKey (query.ts lines 53-58): error (none) on the
empty list, otherwise the sorted names joined with a plus sign. -/
def getWorkspaceKey (repos : List JStr) : Option JStr :=
  match repos with
  | [] => none
  | _ :: _ => some (List.intercalate ['+'] (sortNames repos))

/-- Does the string contain a substring matching the mention regex? Such a
substring exists iff some at-sign is immediately followed by a
mention-class character. -/
def hasMention : JStr → Bool
  | [] => false
  | c :: rest => (decide (c = '@') && headIsMention rest) || hasMention rest

theorem hasMention_eq_true_iff (l : JStr) :
    hasMention l = true ↔
      ∃ pre c post, l = pre ++ '@' :: c :: post ∧ isMentionChar c = true := by
  constructor
  · intro h
    induction l with
    | nil => simp [hasMention] at h
    | cons c rest ih =>
      simp only [hasMention, Bool.or_eq_true, Bool.and_eq_true, decide_eq_true_eq] at h
      rcases h with ⟨hc, hd⟩ | h
      · subst hc
        cases rest with
        | nil => simp [headIsMention] at hd
        | cons d r =>
          exact ⟨[], d, r, by simp, by simpa [headIsMention] using hd⟩
      · obtain ⟨pre, c2, post, hl, hc2⟩ := ih h
        exact ⟨c :: pre, c2, post, by simp [hl], hc2⟩
  · rintro ⟨pre, c, post, rfl, hc⟩
    induction pre with
    | nil => simp [hasMention, headIsMention, hc]
    | cons p pre ih => simp [hasMention, ih]

theorem hasMention_cons_false {c : Char} {l : JStr} (h : hasMention (c :: l) = false) :
    hasMention l = false := by
  simp only [hasMention, Bool.or_eq_false_iff] at h
  exact h.2

theorem headIsMention_stripMentionsAux (l : JStr) :
    ∀ b : Bool, (b = true ∨ headIsMention l = false) →
      headIsMention (stripMentionsAux b l) = false := by
  induction l with
  | nil => intro b _; simp [stripMentionsAux, headIsMention]
  | cons c rest ih =>
    intro b hb
    simp only [stripMentionsAux]
    split
    · exact ih true (Or.inl rfl)
    · split
      · exact ih true (Or.inl rfl)
      · rename_i h1 h2
        have hc : isMentionChar c = false := by
          rcases hb with hb | hb
          · subst hb
            simpa using h1
          · simpa [headIsMention] using hb
        simpa [headIsMention] using hc

theorem hasMention_stripMentionsAux (l : JStr) :
    ∀ b : Bool, hasMention (stripMentionsAux b l) = false := by
  induction l with
  | nil => intro b; simp [stripMentionsAux, hasMention]
  | cons c rest ih =>
    intro b
    simp only [stripMentionsAux]
    split
    · exact ih true
    · split
      · exact ih true
      · rename_i h1 h2
        simp only [hasMention, Bool.or_eq_false_iff, Bool.and_eq_false_iff]
        refine ⟨?_, ih false⟩
        by_cases hc : c = '@'
        · subst hc
          right
          refine headIsMention_stripMentionsAux rest false (Or.inr ?_)
          simpa using h2
        · left
          simpa using hc

theorem hasMention_stripMentions (l : JStr) : hasMention (stripMentions l) = false :=
  hasMention_stripMentionsAux l false

theorem headIsMention_collapseWhitespaceAux (l : JStr)
    (h : headIsMention l = false) :
    headIsMention (collapseWhitespaceAux false l) = false := by
  cases l with
  | nil => simp [collapseWhitespaceAux, headIsMention]
  | cons c rest =>
    simp only [collapseWhitespaceAux]
    split
    · simp [headIsMention, isMentionChar]
    · simpa [headIsMention] using h

theorem hasMention_collapseWhitespaceAux (l : JStr) :
    ∀ b : Bool, hasMention l = false → hasMention (collapseWhitespaceAux b l) = false := by
  induction l with
  | nil => intro b _; simp [collapseWhitespaceAux, hasMention]
  | cons c rest ih =>
    intro b h
    have hrest : hasMention rest = false := hasMention_cons_false h
    simp only [hasMention, Bool.or_eq_false_iff, Bool.and_eq_false_iff] at h
    simp only [collapseWhitespaceAux]
    split
    · split
      · exact ih true hrest
      · simp only [hasMention, Bool.or_eq_false_iff, Bool.and_eq_false_iff]
        exact ⟨Or.inl (by decide), ih true hrest⟩
    · simp only [hasMention, Bool.or_eq_false_iff, Bool.and_eq_false_iff]
      refine ⟨?_, ih false hrest⟩
      by_cases hc : c = '@'
      · subst hc
        right
        refine headIsMention_collapseWhitespaceAux rest ?_
        rcases h.1 with h1 | h1
        · simp at h1
        · exact h1
      · left
        simpa using hc

theorem hasMention_collapseWhitespace (l : JStr) (h : hasMention l = false) :
    hasMention (collapseWhitespace l) = false :=
  hasMention_collapseWhitespaceAux l false h

theorem hasMention_dropWhile (p : Char → Bool) (l : JStr) (h : hasMention l = false) :
    hasMention (l.dropWhile p) = false := by
  induction l with
  | nil => simpa using h
  | cons c rest ih =>
    simp only [List.dropWhile]
    split
    · exact ih (hasMention_cons_false h)
    · exact h

theorem hasMention_append_left (a b : JStr) (h : hasMention (a ++ b) = false) :
    hasMention a = false := by
  induction a with
  | nil => simp [hasMention]
  | cons c a ih =>
    simp only [List.cons_append, hasMention, Bool.or_eq_false_iff,
      Bool.and_eq_false_iff] at h
    simp only [hasMention, Bool.or_eq_false_iff, Bool.and_eq_false_iff]
    refine ⟨?_, ih h.2⟩
    rcases h.1 with h1 | h1
    · exact Or.inl h1
    · cases a with
      | nil => right; simp [headIsMention]
      | cons d r =>
        right
        simpa [headIsMention] using h1

theorem hasMention_jsTrim (l : JStr) (h : hasMention l = false) :
    hasMention (jsTrim l) = false := by
  have ha : hasMention (l.dropWhile isJsWhitespace) = false := hasMention_dropWhile _ l h
  obtain ⟨t, ht⟩ :=
    List.dropWhile_suffix (l := (l.dropWhile isJsWhitespace).reverse) isJsWhitespace
  have hsplit : l.dropWhile isJsWhitespace = jsTrim l ++ t.reverse := by
    have := congrArg List.reverse ht
    simpa [jsTrim, List.reverse_append] using this.symm
  exact hasMention_append_left _ _ (hsplit ▸ ha)

/-- C6: For every input string x, the cleaned prompt parseQuery(x).query
contains no substring matching the mention regex (equivalently, by
hasMention_eq_true_iff, hasMention of it is false): mentions are stripped,
whitespace runs collapsed to one space, and the result trimmed, and none of
the later passes can create a new at-sign/mention-class adjacency. -/
theorem parseQuery_query_has_no_mention (l : JStr) :
    hasMention (parseQuery l).query = false := by
  exact hasMention_jsTrim _ (hasMention_collapseWhitespace _ (hasMention_stripMentions l))

/-- Does the string contain an uppercase ASCII letter (codes 65-90)? -/
def hasUpper (s : JStr) : Bool :=
  s.any (fun c => decide (65 ≤ c.toNat ∧ c.toNat ≤ 90))

theorem toLower_not_upper (c : Char) :
    ¬(65 ≤ (Char.toLower c).toNat ∧ (Char.toLower c).toNat ≤ 90) := by
  have heq : Char.toLower c =
      if c.toNat ≥ 65 ∧ c.toNat ≤ 90 then Char.ofNat (c.toNat + 32) else c := rfl
  rw [heq]
  split
  · rename_i h
    have hv : Nat.isValidChar (c.toNat + 32) := Or.inl (by omega)
    unfold Char.ofNat
    rw [dif_pos hv]
    have he : (Char.ofNatAux (c.toNat + 32) hv).toNat = c.toNat + 32 := rfl
    omega
  · rename_i h
    omega

theorem dedupFirst_go_nodup (l : List JStr) :
    ∀ seen : List JStr,
      (dedupFirst.go seen l).Nodup ∧ ∀ x ∈ dedupFirst.go seen l, x ∉ seen := by
  induction l with
  | nil => intro seen; simp [dedupFirst.go]
  | cons x xs ih =>
    intro seen
    simp only [dedupFirst.go]
    split
    · exact ⟨(ih seen).1, (ih seen).2⟩
    · rename_i hx
      obtain ⟨hnd, hout⟩ := ih (x :: seen)
      constructor
      · refine List.nodup_cons.mpr ⟨?_, hnd⟩
        intro hmem
        exact (hout x hmem) (List.mem_cons_self x seen)
      · intro y hy
        rcases List.mem_cons.mp hy with rfl | hy
        · exact hx
        · intro hseen
          exact (hout y hy) (List.mem_cons_of_mem _ hseen)

theorem dedupFirst_go_subset (l : List JStr) :
    ∀ seen : List JStr, ∀ x ∈ dedupFirst.go seen l, x ∈ l := by
  induction l with
  | nil => intro seen x hx; simp [dedupFirst.go] at hx
  | cons y ys ih =>
    intro seen x hx
    simp only [dedupFirst.go] at hx
    split at hx
    · exact List.mem_cons_of_mem _ (ih seen x hx)
    · rcases List.mem_cons.mp hx with rfl | hx
      · exact List.mem_cons_self _ _
      · exact List.mem_cons_of_mem _ (ih (y :: seen) x hx)

/-- C9: parseQuery lowercases each extracted mention, deduplicates and sorts:
on the input at-a space at-b space at-capital-A it returns repos a, b with an
empty prompt, and for every input the repos list is sorted, duplicate-free,
and free of uppercase ASCII letters. -/
theorem parseQuery_repos_canonical :
    parseQuery "@a @b @A".toList = ⟨[['a'], ['b']], []⟩ ∧
    ∀ l : JStr,
      List.Sorted (· ≤ ·) (parseQuery l).repos ∧ (parseQuery l).repos.Nodup ∧
      (parseQuery l).repos.all (fun r => !hasUpper r) = true := by
  refine ⟨by decide, fun l => ⟨?_, ?_, ?_⟩⟩
  · exact List.sorted_insertionSort _ _
  · have hperm := List.perm_insertionSort
      ((· ≤ ·) : JStr → JStr → Prop)
      (dedupFirst ((extractMentions l).map (fun m => m.map Char.toLower)))
    exact hperm.nodup_iff.mpr (dedupFirst_go_nodup _ []).1
  · rw [List.all_eq_true]
    intro r hr
    have hperm := List.perm_insertionSort
      ((· ≤ ·) : JStr → JStr → Prop)
      (dedupFirst ((extractMentions l).map (fun m => m.map Char.toLower)))
    have hr2 : r ∈ dedupFirst ((extractMentions l).map (fun m => m.map Char.toLower)) :=
      hperm.mem_iff.mp hr
    have hr3 := dedupFirst_go_subset _ [] r hr2
    obtain ⟨m, _, rfl⟩ := List.mem_map.mp hr3
    simp only [Bool.not_eq_true', hasUpper, List.any_map, List.any_eq_false,
      Function.comp_apply, decide_eq_true_eq]
    intro c _
    exact toLower_not_upper c

/-- C4: getWorkspaceKey is invariant under permutation of a non-empty
repository list, and the key is the sorted names joined with a plus sign. -/
theorem getWorkspaceKey_perm_invariant (l l2 : List JStr) (hne : l ≠ [])
    (hp : l.Perm l2) :
    getWorkspaceKey l2 = getWorkspaceKey l ∧
    getWorkspaceKey l = some (List.intercalate ['+'] (sortNames l)) := by
  have hne2 : l2 ≠ [] := by
    intro h
    subst h
    exact hne hp.eq_nil
  have hsort : sortNames l2 = sortNames l := by
    have h1 : (sortNames l2).Perm (sortNames l) :=
      ((List.perm_insertionSort _ l2).trans hp.symm).trans
        (List.perm_insertionSort _ l).symm
    exact List.eq_of_perm_of_sorted h1
      (List.sorted_insertionSort _ l2) (List.sorted_insertionSort _ l)
  obtain ⟨x, xs, rfl⟩ := List.exists_cons_of_ne_nil hne
  obtain ⟨y, ys, rfl⟩ := List.exists_cons_of_ne_nil hne2
  exact ⟨by simp [getWorkspaceKey, hsort], rfl⟩

/-- Witness for C4 at a concrete permutation pair. -/
theorem getWorkspaceKey_perm_invariant_witness :
    getWorkspaceKey [['a'], ['b']] = getWorkspaceKey [['b'], ['a']] ∧
    getWorkspaceKey [['b'], ['a']] =
      some (List.intercalate ['+'] (sortNames [['b'], ['a']])) :=
  getWorkspaceKey_perm_invariant [['b'], ['a']] [['a'], ['b']] (by decide) (by decide)

/-- Counterexample to C5: getWorkspaceKey does not lowercase; on the
single-name list capital-A the key is capital-A, which contains an uppercase
character and differs from the lowercased key the claim prescribes. -/
theorem getWorkspaceKey_uppercase_counterexample :
    getWorkspaceKey [['A']] = some ['A'] ∧ hasUpper ['A'] = true ∧
    getWorkspaceKey [['A']] ≠ some ['a'] := by
  refine ⟨by decide, by decide, by decide⟩

/-- C5 amended: getWorkspaceKey fails (returns none) on the empty list and,
for every non-empty list, returns the plus-joined sorted names exactly as
given, without case-folding (the key is the join of a sorted permutation of
the input names). -/
theorem getWorkspaceKey_amended :
    getWorkspaceKey [] = none ∧
    ∀ repos : List JStr, repos ≠ [] →
      ∃ s, getWorkspaceKey repos = some (List.intercalate ['+'] s) ∧
        s.Perm repos ∧ List.Sorted (· ≤ ·) s := by
  refine ⟨rfl, fun repos hne => ⟨sortNames repos, ?_, ?_, ?_⟩⟩
  · obtain ⟨x, xs, rfl⟩ := List.exists_cons_of_ne_nil hne
    rfl
  · exact List.perm_insertionSort _ repos
  · exact List.sorted_insertionSort _ repos

/-- Witness for the amended C5 at a concrete non-empty list. -/
theorem getWorkspaceKey_amended_witness :
    ∃ s, getWorkspaceKey [['b'], ['a']] = some (List.intercalate ['+'] s) ∧
      s.Perm [['b'], ['a']] ∧ List.Sorted (· ≤ ·) s :=
  getWorkspaceKey_amended.2 [['b'], ['a']] (by decide)

/-- Path join as performed by pathService.join in workspace.ts. -/
def pjoin (a b : JStr) : JStr := a ++ '/' :: b

/-- Repository record held in the configuration (workspace.ts lines 249-255). -/
structure RepoConfig where
  name : JStr
  url : JStr
  branch : JStr
  specialNotes : Option JStr
  searchPath : Option JStr
deriving DecidableEq, Repr

/-- Member entry of a WorkspaceInfo (workspace.ts lines 214-221, 293-304). -/
structure MemberInfo where
  name : JStr
  relativePath : JStr
  specialNotes : Option JStr
deriving DecidableEq, Repr

/-- Result record of ensureWorkspace (interface WorkspaceInfo). -/
structure WorkspaceInfo where
  workspacePath : JStr
  repos : List MemberInfo
deriving DecidableEq, Repr

/-- Abstract filesystem: the set of directories that exist. Directory
creation (ensureDirectory) and git-worktree-add push paths; ensureWorkspace
itself never removes a path. -/
structure FsState where
  dirs : List JStr
deriving DecidableEq, Repr

/-- Environment of ensureWorkspace: the directory roots from the config
service, the repository registry lookup (config.getRepo), and oracles giving
the outcome of the two effectful git operations, per repository name
(cloneOrUpdateOneRepoLocally and createWorktree). -/
structure WsEnv where
  workspacesDir : JStr
  reposDir : JStr
  getRepo : JStr → Option RepoConfig
  cloneOrUpdateOk : JStr → Bool
  createWorktreeOk : JStr → Bool

/-- Failure cases of ensureWorkspace (all surfaced as ConfigError or the
propagated git error in the source). -/
inductive WsError where
  | emptyRepos
  | unknownRepo
  | syncFailed
  | worktreeFailed
deriving DecidableEq, Repr

deriving instance DecidableEq for Except

/-- One run of ensureWorkspace: its result, the filesystem afterwards, and
the worktree paths created during this call (in creation order). -/
structure WsRun where
  result : Except WsError WorkspaceInfo
  state : FsState
  createdWorktrees : List JStr
deriving DecidableEq, Repr

/-- Sequential getRepo resolution loop (workspace.ts lines 257-260). -/
def resolveRepos (getRepo : JStr → Option RepoConfig) : List JStr → Option (List RepoConfig)
  | [] => some []
  | n :: ns =>
    match getRepo n with
    | none => none
    | some c =>
      match resolveRepos getRepo ns with
      | none => none
      | some cs => some (c :: cs)

/-- Member record built for one repo (workspace.ts lines 293-304):
relativePath is the name, or name slash searchPath when a searchPath is set. -/
def memberOf (cfg : RepoConfig) : MemberInfo :=
  ⟨cfg.name,
    (match cfg.searchPath with
     | some sp => pjoin cfg.name sp
     | none => cfg.name),
    cfg.specialNotes⟩

/-- Worktree creation loop (workspace.ts lines 275-285): for each repo in
order, git worktree add at workspacePath slash name; on the first failing
repo the loop stops and the failing name is reported, with no removal of
anything already created. -/
def createWorktrees (wtOk : JStr → Bool) (workspacePath : JStr) :
    List RepoConfig → FsState → List JStr → Option JStr × FsState × List JStr
  | [], st, created => (none, st, created)
  | cfg :: rest, st, created =>
    if wtOk cfg.name then
      createWorktrees wtOk workspacePath rest
        ⟨pjoin workspacePath cfg.name :: st.dirs⟩
        (created ++ [pjoin workspacePath cfg.name])
    else (some cfg.name, st, created)

/-- Embedding of ensureWorkspace (workspace.ts lines 232-310). The source
rejects an empty list (lines 234-238), which is exactly the case in which
getWorkspaceKey of the sorted names fails; it then resolves every name,
clones or updates every central repo, and, only when the workspace directory
does not yet exist, creates it and one worktree per repo. -/
def ensureWorkspace (env : WsEnv) (repoNames : List JStr) (st : FsState) : WsRun :=
  match getWorkspaceKey (sortNames repoNames) with
  | none => ⟨.error .emptyRepos, st, []⟩
  | some key =>
    match resolveRepos env.getRepo (sortNames repoNames) with
    | none => ⟨.error .unknownRepo, st, []⟩
    | some repoConfigs =>
      if (sortNames repoNames).all env.cloneOrUpdateOk then
        if pjoin env.workspacesDir key ∈ st.dirs then
          ⟨.ok ⟨pjoin env.workspacesDir key, repoConfigs.map memberOf⟩, st, []⟩
        else
          match createWorktrees env.createWorktreeOk (pjoin env.workspacesDir key)
              repoConfigs ⟨pjoin env.workspacesDir key :: st.dirs⟩ [] with
          | (some _, st2, created) => ⟨.error .worktreeFailed, st2, created⟩
          | (none, st2, created) =>
            ⟨.ok ⟨pjoin env.workspacesDir key, repoConfigs.map memberOf⟩, st2, created⟩
      else ⟨.error .syncFailed, st, []⟩

theorem createWorktrees_dirs_subset (wtOk : JStr → Bool) (wp : JStr)
    (cfgs : List RepoConfig) :
    ∀ st acc, ∀ p ∈ st.dirs, p ∈ (createWorktrees wtOk wp cfgs st acc).2.1.dirs := by
  induction cfgs with
  | nil => intro st acc p hp; exact hp
  | cons cfg rest ih =>
    intro st acc p hp
    simp only [createWorktrees]
    split
    · exact ih _ _ p (List.mem_cons_of_mem _ hp)
    · exact hp

theorem createWorktrees_created_present (wtOk : JStr → Bool) (wp : JStr)
    (cfgs : List RepoConfig) :
    ∀ st acc, (∀ p ∈ acc, p ∈ st.dirs) →
      ∀ p ∈ (createWorktrees wtOk wp cfgs st acc).2.2,
        p ∈ (createWorktrees wtOk wp cfgs st acc).2.1.dirs := by
  induction cfgs with
  | nil => intro st acc hacc p hp; exact hacc p hp
  | cons cfg rest ih =>
    intro st acc hacc p hp
    simp only [createWorktrees] at hp ⊢
    split at hp
    · rename_i hwt
      rw [if_pos hwt]
      refine ih _ _ ?_ p hp
      intro q hq
      rcases List.mem_append.mp hq with hq | hq
      · exact List.mem_cons_of_mem _ (hacc q hq)
      · simp only [List.mem_singleton] at hq
        subst hq
        exact List.mem_cons_self _ _
    · rename_i hwt
      rw [if_neg hwt]
      exact hacc p hp

/-- C1 amended: ensureWorkspace never removes a directory. Every directory
present before a call (in particular every worktree of the partially built
workspace) is still present afterwards, and every worktree created during
the call is present afterwards, even when the call fails mid-creation. -/
theorem ensureWorkspace_never_removes (env : WsEnv) (repoNames : List JStr)
    (st : FsState) :
    (∀ p ∈ st.dirs, p ∈ (ensureWorkspace env repoNames st).state.dirs) ∧
    (∀ p ∈ (ensureWorkspace env repoNames st).createdWorktrees,
      p ∈ (ensureWorkspace env repoNames st).state.dirs) := by
  unfold ensureWorkspace
  cases hkey : getWorkspaceKey (sortNames repoNames) with
  | none => exact ⟨fun p hp => hp, fun p hp => by simp at hp⟩
  | some key =>
    dsimp only
    cases hres : resolveRepos env.getRepo (sortNames repoNames) with
    | none => exact ⟨fun p hp => hp, fun p hp => by simp at hp⟩
    | some cfgs =>
      dsimp only
      by_cases hsync : (sortNames repoNames).all env.cloneOrUpdateOk = true
      · rw [if_pos hsync]
        by_cases hmem : pjoin env.workspacesDir key ∈ st.dirs
        · rw [if_pos hmem]
          exact ⟨fun p hp => hp, fun p hp => by simp at hp⟩
        · rw [if_neg hmem]
          rcases hcw : createWorktrees env.createWorktreeOk (pjoin env.workspacesDir key)
              cfgs ⟨pjoin env.workspacesDir key :: st.dirs⟩ [] with ⟨ores, st2, cr⟩
          have hsub : ∀ p ∈ st.dirs, p ∈ st2.dirs := by
            intro p hp
            have := createWorktrees_dirs_subset env.createWorktreeOk
              (pjoin env.workspacesDir key) cfgs ⟨pjoin env.workspacesDir key :: st.dirs⟩ []
              p (List.mem_cons_of_mem _ hp)
            rw [hcw] at this
            exact this
          have hcr : ∀ p ∈ cr, p ∈ st2.dirs := by
            intro p hp
            have := createWorktrees_created_present env.createWorktreeOk
              (pjoin env.workspacesDir key) cfgs ⟨pjoin env.workspacesDir key :: st.dirs⟩ []
              (by intro q hq; simp at hq) p (by rw [hcw]; exact hp)
            rw [hcw] at this
            exact this
          cases ores with
          | some nm => exact ⟨hsub, hcr⟩
          | none => exact ⟨hsub, hcr⟩
      · rw [if_neg hsync]
        exact ⟨fun p hp => hp, fun p hp => by simp at hp⟩

/-- Concrete environment in which worktree creation fails for repo b. -/
def envWorktreeBFails : WsEnv :=
  ⟨"ws".toList, "repos".toList,
    fun n =>
      if n = ['a'] then some ⟨['a'], "urlA".toList, "main".toList, none, none⟩
      else if n = ['b'] then some ⟨['b'], "urlB".toList, "main".toList, none, none⟩
      else none,
    fun _ => true,
    fun n => decide (n ≠ ['b'])⟩

/-- Counterexample to C1 as stated: with repos a and b, worktree creation
succeeding for a and failing for b, ensureWorkspace surfaces the error while
the partially built workspace directory ws/a+b and the worktree ws/a+b/a
created in this attempt are still on disk; nothing is removed. -/
theorem ensureWorkspace_no_cleanup_counterexample :
    (ensureWorkspace envWorktreeBFails [['b'], ['a']] ⟨[]⟩).result =
      .error .worktreeFailed ∧
    "ws/a+b".toList ∈ (ensureWorkspace envWorktreeBFails [['b'], ['a']] ⟨[]⟩).state.dirs ∧
    "ws/a+b/a".toList ∈ (ensureWorkspace envWorktreeBFails [['b'], ['a']] ⟨[]⟩).state.dirs ∧
    (ensureWorkspace envWorktreeBFails [['b'], ['a']] ⟨[]⟩).createdWorktrees =
      ["ws/a+b/a".toList] := by
  refine ⟨by decide, by decide, by decide, by decide⟩

/-- Witness for the amended C1 at the same concrete failing run: the
directory present before the call and the worktree created during the
failing attempt are both present afterwards. -/
theorem ensureWorkspace_never_removes_witness :
    "keep".toList ∈
      (ensureWorkspace envWorktreeBFails [['b'], ['a']] ⟨["keep".toList]⟩).state.dirs ∧
    "ws/a+b/a".toList ∈
      (ensureWorkspace envWorktreeBFails [['b'], ['a']] ⟨["keep".toList]⟩).state.dirs :=
  ⟨(ensureWorkspace_never_removes envWorktreeBFails [['b'], ['a']] ⟨["keep".toList]⟩).1
      "keep".toList (by decide),
   (ensureWorkspace_never_removes envWorktreeBFails [['b'], ['a']] ⟨["keep".toList]⟩).2
      "ws/a+b/a".toList (by decide)⟩

/-- C8: if ensureWorkspace succeeds, an immediately repeated call with the
same repository list returns the identical WorkspaceInfo (same workspacePath,
hence the same key, which is the path's final component), leaves the
filesystem unchanged, and creates no worktree: the existing workspace
directory is found and reused. -/
theorem ensureWorkspace_idempotent (env : WsEnv) (repoNames : List JStr)
    (st st1 : FsState) (info : WorkspaceInfo) (created : List JStr)
    (h : ensureWorkspace env repoNames st = ⟨.ok info, st1, created⟩) :
    ensureWorkspace env repoNames st1 = ⟨.ok info, st1, []⟩ := by
  unfold ensureWorkspace at h ⊢
  cases hkey : getWorkspaceKey (sortNames repoNames) with
  | none => rw [hkey] at h; simp at h
  | some key =>
    rw [hkey] at h
    dsimp only at h ⊢
    cases hres : resolveRepos env.getRepo (sortNames repoNames) with
    | none => rw [hres] at h; simp at h
    | some cfgs =>
      rw [hres] at h
      dsimp only at h ⊢
      by_cases hsync : (sortNames repoNames).all env.cloneOrUpdateOk = true
      · rw [if_pos hsync] at h ⊢
        by_cases hmem : pjoin env.workspacesDir key ∈ st.dirs
        · rw [if_pos hmem] at h
          rw [WsRun.mk.injEq] at h
          obtain ⟨h1, h2, h3⟩ := h
          subst h2
          rw [if_pos hmem, h1]
        · rw [if_neg hmem] at h
          rcases hcw : createWorktrees env.createWorktreeOk (pjoin env.workspacesDir key)
              cfgs ⟨pjoin env.workspacesDir key :: st.dirs⟩ [] with ⟨ores, st2, cr⟩
          rw [hcw] at h
          cases ores with
          | some nm => simp at h
          | none =>
            dsimp only at h
            rw [WsRun.mk.injEq] at h
            obtain ⟨h1, h2, h3⟩ := h
            subst h2
            have hwp : pjoin env.workspacesDir key ∈ st2.dirs := by
              have := createWorktrees_dirs_subset env.createWorktreeOk
                (pjoin env.workspacesDir key) cfgs ⟨pjoin env.workspacesDir key :: st.dirs⟩ []
                (pjoin env.workspacesDir key) (List.mem_cons_self _ _)
              rw [hcw] at this
              exact this
            rw [if_pos hwp, h1]
      · rw [if_neg hsync] at h; simp at h

/-- Concrete environment in which every git operation succeeds. -/
def envAllOk : WsEnv :=
  ⟨"ws".toList, "repos".toList,
    fun n =>
      if n = ['a'] then some ⟨['a'], "urlA".toList, "main".toList, none, none⟩
      else if n = ['b'] then some ⟨['b'], "urlB".toList, "main".toList, none, none⟩
      else none,
    fun _ => true,
    fun _ => true⟩

/-- Witness for C8 at a concrete successful first call: the second call
returns the same WorkspaceInfo, the same state, and creates nothing. -/
theorem ensureWorkspace_idempotent_witness :
    ensureWorkspace envAllOk [['b'], ['a']]
        ⟨["ws/a+b/b".toList, "ws/a+b/a".toList, "ws/a+b".toList]⟩ =
      ⟨.ok ⟨"ws/a+b".toList,
        [⟨['a'], ['a'], none⟩, ⟨['b'], ['b'], none⟩]⟩,
       ⟨["ws/a+b/b".toList, "ws/a+b/a".toList, "ws/a+b".toList]⟩, []⟩ :=
  ensureWorkspace_idempotent envAllOk [['b'], ['a']] ⟨[]⟩
    ⟨["ws/a+b/b".toList, "ws/a+b/a".toList, "ws/a+b".toList]⟩
    ⟨"ws/a+b".toList, [⟨['a'], ['a'], none⟩, ⟨['b'], ['b'], none⟩]⟩
    ["ws/a+b/a".toList, "ws/a+b/b".toList]
    (by decide)

/-- Provider advertisement entry returned by provider.list: its id and the
ids of its models (the keys of the models object). -/
structure ProviderEntry where
  id : JStr
  models : List JStr
deriving DecidableEq, Repr

/-- Successful provider.list payload (part_000 line 18): all advertised
providers and the connected provider ids. -/
structure ProviderData where
  all : List ProviderEntry
  connected : List JStr
deriving DecidableEq, Repr

/-- Validation errors of part_000 (InvalidProviderError,
ProviderNotConnectedError, InvalidModelError) with their payloads. -/
inductive ValidationError where
  | invalidProvider (providerId : JStr) (availableProviders : List JStr)
  | providerNotConnected (providerId : JStr) (connectedProviders : List JStr)
  | invalidModel (providerId : JStr) (modelId : JStr) (availableModels : List JStr)
deriving DecidableEq, Repr

/-- Embedding of validateProviderAndModel (part_000 lines 5-52). The
response argument models the two-stage optionality of the source: none is a
rejected provider.list() promise (Effect.option yields None), some none a
response carrying no data; both return without validating (fail open). -/
def validateProviderAndModel (response : Option (Option ProviderData))
    (providerId modelId : JStr) : Except ValidationError Unit :=
  match response with
  | none => .ok ()
  | some none => .ok ()
  | some (some d) =>
    match d.all.find? (fun p => p.id == providerId) with
    | none => .error (.invalidProvider providerId (d.all.map (fun p => p.id)))
    | some provider =>
      if d.connected.contains providerId then
        if provider.models.contains modelId then .ok ()
        else .error (.invalidModel providerId modelId provider.models)
      else .error (.providerNotConnected providerId d.connected)

/-- Session-start failures of createSession (oc.ts lines 268-303): a
validation error propagated out of validateProviderAndModel, or the
FAILED TO START OPENCODE SESSION error when session.create reports one. -/
inductive SessionStartError where
  | validation (e : ValidationError)
  | sessionCreateFailed
deriving DecidableEq, Repr

/-- The SessionState record built on success (oc.ts lines 294-300); the
client and server handles are omitted, serverClosed below tracks the only
operation performed on them. -/
structure SessionStateM where
  sessionID : JStr
  workspacePath : JStr
  repos : List JStr
deriving DecidableEq, Repr

/-- One run of the tail of createSession: the result and whether
server.close() has been called by the time the function returns. -/
structure CreateSessionRun where
  result : Except SessionStartError SessionStateM
  serverClosed : Bool
deriving DecidableEq, Repr

/-- Embedding of createSession (oc.ts lines 268-303) from the point where
the server instance has been obtained: validate the provider and model, then
ask the agent to create a session (sessionCreate carries its outcome). The
source calls server.close() only in the session.create error branch; a
validation failure propagates with the server left open. askQuestion
(oc.ts lines 331-373) runs the identical validation and close logic. -/
def createSession (response : Option (Option ProviderData)) (providerId modelId : JStr)
    (sessionCreate : Except JStr JStr) (workspacePath : JStr) (repos : List JStr) :
    CreateSessionRun :=
  match validateProviderAndModel response providerId modelId with
  | .error e => ⟨.error (.validation e), false⟩
  | .ok _ =>
    match sessionCreate with
    | .error _ => ⟨.error .sessionCreateFailed, true⟩
    | .ok sid => ⟨.ok ⟨sid, workspacePath, sortNames repos⟩, false⟩

/-- Counterexample to C2 as stated: a successful provider listing that does
not contain the requested provider makes createSession fail with
InvalidProvider, but serverClosed is false: the already-started server is
not closed before the validation error surfaces. -/
theorem createSession_leaves_server_open_counterexample :
    createSession
        (some (some ⟨[⟨"openai".toList, ["gpt".toList]⟩], ["openai".toList]⟩))
        "anthropic".toList "claude".toList (.ok "s1".toList) "ws/a".toList [['a']] =
      ⟨.error (.validation (.invalidProvider "anthropic".toList ["openai".toList])),
        false⟩ := by
  decide

/-- C2 amended: validation fails open when the provider listing fails or
carries no data, and fails closed with the specific error when the listing
succeeds and contradicts the request (provider absent, provider not
connected, model absent, checked in that order); a validation error
surfaces with the server left open (serverClosed false), and the server is
closed only when session creation itself fails. -/
theorem createSession_validation_spec (d : ProviderData) (pid mid : JStr)
    (sc : Except JStr JStr) (wp : JStr) (repos : List JStr) :
    (validateProviderAndModel none pid mid = .ok () ∧
      validateProviderAndModel (some none) pid mid = .ok ()) ∧
    (pid ∉ d.all.map (fun p => p.id) →
      validateProviderAndModel (some (some d)) pid mid =
        .error (.invalidProvider pid (d.all.map (fun p => p.id)))) ∧
    (∀ provider, d.all.find? (fun p => p.id == pid) = some provider →
      pid ∉ d.connected →
      validateProviderAndModel (some (some d)) pid mid =
        .error (.providerNotConnected pid d.connected)) ∧
    (∀ provider, d.all.find? (fun p => p.id == pid) = some provider →
      pid ∈ d.connected → mid ∉ provider.models →
      validateProviderAndModel (some (some d)) pid mid =
        .error (.invalidModel pid mid provider.models)) ∧
    (∀ response e, validateProviderAndModel response pid mid = .error e →
      createSession response pid mid sc wp repos = ⟨.error (.validation e), false⟩) ∧
    (∀ response err, validateProviderAndModel response pid mid = .ok () →
      sc = .error err →
      createSession response pid mid sc wp repos = ⟨.error .sessionCreateFailed, true⟩) := by
  refine ⟨⟨rfl, rfl⟩, ?_, ?_, ?_, ?_, ?_⟩
  · intro hnp
    have hfind : d.all.find? (fun p => p.id == pid) = none := by
      rw [List.find?_eq_none]
      intro x hx
      simp only [beq_iff_eq]
      intro heq
      exact hnp (List.mem_map.mpr ⟨x, hx, heq⟩)
    unfold validateProviderAndModel
    dsimp only
    rw [hfind]
  · intro provider hfind hnc
    have hc : d.connected.contains pid = false := by
      rw [Bool.eq_false_iff]
      intro hcb
      exact hnc (List.elem_iff.mp hcb)
    unfold validateProviderAndModel
    dsimp only
    rw [hfind, hc]
    rfl
  · intro provider hfind hc hnm
    have hcb : d.connected.contains pid = true := List.elem_iff.mpr hc
    have hmb : provider.models.contains mid = false := by
      rw [Bool.eq_false_iff]
      intro hmm
      exact hnm (List.elem_iff.mp hmm)
    unfold validateProviderAndModel
    dsimp only
    rw [hfind]
    dsimp only
    rw [hcb, hmb]
    rfl
  · intro response e hv
    unfold createSession
    rw [hv]
  · intro response err hv hsc
    unfold createSession
    rw [hv, hsc]

/-- Witness for the amended C2 at concrete inputs: fail-open on a failed
listing; InvalidProvider with the server left open on a contradicting
listing; server closed when session creation fails. -/
theorem createSession_validation_spec_witness :
    validateProviderAndModel none "anthropic".toList "claude".toList = .ok () ∧
    createSession
        (some (some ⟨[⟨"openai".toList, ["gpt".toList]⟩], ["openai".toList]⟩))
        "anthropic".toList "claude".toList (.ok "s1".toList) "ws/a".toList [['a']] =
      ⟨.error (.validation (.invalidProvider "anthropic".toList ["openai".toList])),
        false⟩ ∧
    createSession none "anthropic".toList "claude".toList (.error "boom".toList)
        "ws/a".toList [['a']] =
      ⟨.error .sessionCreateFailed, true⟩ :=
  ⟨(createSession_validation_spec
      ⟨[⟨"openai".toList, ["gpt".toList]⟩], ["openai".toList]⟩
      "anthropic".toList "claude".toList (.ok "s1".toList) "ws/a".toList [['a']]).1.1,
   (createSession_validation_spec
      ⟨[⟨"openai".toList, ["gpt".toList]⟩], ["openai".toList]⟩
      "anthropic".toList "claude".toList (.ok "s1".toList) "ws/a".toList
      [['a']]).2.2.2.2.1
      (some (some ⟨[⟨"openai".toList, ["gpt".toList]⟩], ["openai".toList]⟩))
      (.invalidProvider "anthropic".toList ["openai".toList]) (by decide),
   (createSession_validation_spec
      ⟨[⟨"openai".toList, ["gpt".toList]⟩], ["openai".toList]⟩
      "anthropic".toList "claude".toList (.error "boom".toList) "ws/a".toList
      [['a']]).2.2.2.2.2 none "boom".toList (by decide) rfl⟩

/-- Does the pattern occur at the head of the text? -/
def beginsWith : JStr → JStr → Bool
  | [], _ => true
  | _ :: _, [] => false
  | a :: as, b :: bs => a == b && beginsWith as bs

/-- Does the pattern occur anywhere in the text (String.prototype.includes)? -/
def containsSub (needle : JStr) : JStr → Bool
  | [] => beginsWith needle []
  | c :: rest => beginsWith needle (c :: rest) || containsSub needle rest

/-- Shape of the createOpencode rejection inspected by the catchAll in
oc.ts line 73: whether err.cause is an Error instance, and the stack string
of the cause when present. -/
structure BootError where
  causeIsError : Bool
  causeStack : Option JStr
deriving DecidableEq, Repr

/-- Outcome of one createOpencode attempt at a given port. -/
inductive BootOutcome where
  | success
  | failure (err : BootError)
deriving DecidableEq, Repr

/-- Port-busy detection (oc.ts line 73): the cause is an Error whose stack
mentions the word port. -/
def isPortBusy (err : BootError) : Bool :=
  err.causeIsError &&
    (match err.causeStack with
     | some stack => containsSub "port".toList stack
     | none => false)

/-- Base port of the probe loop (oc.ts lines 68, 87). -/
def basePort : Nat := 3420

/-- Number of ports probed (oc.ts line 62). -/
def maxInstances : Nat := 30

/-- Failures of getOpencodeInstanceForWorkspace: a fatal boot error
(FAILED TO CREATE OPENCODE CLIENT) or all ports exhausted. -/
inductive OcFailure where
  | createFailed (err : BootError)
  | portsExhausted
deriving DecidableEq, Repr

/-- Embedding of the while loop of getOpencodeInstanceForWorkspace (oc.ts
lines 60-102), parametrised by the boot outcome per port: while the offset
is below maxInstances, try basePort plus offset; success returns that port;
a port-busy failure advances the offset; any other failure is fatal; when
the offset reaches maxInstances the loop ends with ports exhausted. -/
def tryPortsFrom (boot : Nat → BootOutcome) (portOffset : Nat) : Except OcFailure Nat :=
  if hlt : portOffset < maxInstances then
    match boot (basePort + portOffset) with
    | .success => .ok (basePort + portOffset)
    | .failure err =>
      if isPortBusy err then tryPortsFrom boot (portOffset + 1)
      else .error (.createFailed err)
  else .error .portsExhausted
termination_by maxInstances - portOffset
decreasing_by exact Nat.sub_lt_sub_left hlt (Nat.lt_succ_self portOffset)

/-- The full probe starting at offset 0; on success the bound port is
returned (the source then builds the client against it). -/
def getOpencodeInstanceForWorkspace (boot : Nat → BootOutcome) : Except OcFailure Nat :=
  tryPortsFrom boot 0

/-- Is the boot outcome at offset j a port-busy failure? -/
def busyAt (boot : Nat → BootOutcome) (j : Nat) : Bool :=
  match boot (basePort + j) with
  | .failure err => isPortBusy err
  | .success => false

theorem tryPortsFrom_skip_busy (boot : Nat → BootOutcome) (k : Nat) :
    k ≤ maxInstances → (∀ j, j < k → busyAt boot j = true) →
    tryPortsFrom boot 0 = tryPortsFrom boot k := by
  induction k with
  | zero => intro _ _; rfl
  | succ k ih =>
    intro hk hbusy
    have hkm : k < maxInstances := by omega
    rw [ih (by omega) (fun j hj => hbusy j (by omega))]
    have hb := hbusy k (by omega)
    rw [tryPortsFrom, dif_pos hkm]
    unfold busyAt at hb
    cases hout : boot (basePort + k) with
    | success => rw [hout] at hb; simp at hb
    | failure err =>
      rw [hout] at hb
      dsimp only at hb
      dsimp only
      rw [if_pos hb]

/-- C3: the probe tries ports 3420, 3421, and so on in order, treating a
boot failure whose cause stack mentions port as port-busy: with all offsets
below k busy and k below 30, a success at offset k binds port 3420 plus k
and a non-busy failure at offset k is fatal immediately; with all 30
offsets busy the probe fails with ports exhausted, so no instance (and
hence no session) is produced. -/
theorem getOpencodeInstanceForWorkspace_port_spec (boot : Nat → BootOutcome) :
    (∀ k, k < 30 → (∀ j, j < k → busyAt boot j = true) →
      boot (3420 + k) = .success →
      getOpencodeInstanceForWorkspace boot = .ok (3420 + k)) ∧
    (∀ k err, k < 30 → (∀ j, j < k → busyAt boot j = true) →
      boot (3420 + k) = .failure err → isPortBusy err = false →
      getOpencodeInstanceForWorkspace boot = .error (.createFailed err)) ∧
    ((∀ j, j < 30 → busyAt boot j = true) →
      getOpencodeInstanceForWorkspace boot = .error .portsExhausted) := by
  have hbase : basePort = 3420 := rfl
  have hmax : maxInstances = 30 := rfl
  refine ⟨?_, ?_, ?_⟩
  · intro k hk hbusy hsucc
    unfold getOpencodeInstanceForWorkspace
    rw [tryPortsFrom_skip_busy boot k (by omega) hbusy]
    rw [tryPortsFrom, dif_pos (by omega : k < maxInstances)]
    rw [hbase, hsucc]
  · intro k err hk hbusy hfail hnotbusy
    unfold getOpencodeInstanceForWorkspace
    rw [tryPortsFrom_skip_busy boot k (by omega) hbusy]
    rw [tryPortsFrom, dif_pos (by omega : k < maxInstances)]
    rw [hbase, hfail]
    dsimp only
    rw [if_neg (by rw [hnotbusy]; exact Bool.false_ne_true)]
  · intro hbusy
    unfold getOpencodeInstanceForWorkspace
    rw [tryPortsFrom_skip_busy boot 30 (by omega) hbusy]
    rw [tryPortsFrom, dif_neg (by omega : ¬(30 < maxInstances))]

/-- Concrete boot oracle: ports 3420 and 3421 are busy (the boot rejection
carries an Error cause whose stack mentions port), port 3422 boots. -/
def bootTwoBusy : Nat → BootOutcome :=
  fun p =>
    if p = 3420 ∨ p = 3421 then
      .failure ⟨true, some "Error: listen EADDRINUSE: port in use".toList⟩
    else .success

/-- Witness for C3: with 3420 and 3421 busy, the probe binds port 3422. -/
theorem getOpencodeInstanceForWorkspace_port_spec_witness :
    getOpencodeInstanceForWorkspace bootTwoBusy = .ok (3420 + 2) :=
  (getOpencodeInstanceForWorkspace_port_spec bootTwoBusy).1 2 (by decide)
    (by decide) (by decide)

/-- Event from the agent event stream: its type tag, and the sessionID field
of its properties when the properties carry one (absence modelled as none,
matching the in-operator check of oc.ts line 133). -/
structure OcEvent where
  type : JStr
  sessionID : Option JStr
deriving DecidableEq, Repr

/-- The per-session filter of streamSessionEvents (oc.ts lines 131-135):
keep an event when its properties carry no sessionID, otherwise keep it
exactly when that sessionID equals this session. -/
def sessionFilter (sid : JStr) (e : OcEvent) : Bool :=
  match e.sessionID with
  | none => true
  | some s => s == sid

/-- The takeUntil predicate of oc.ts lines 136-139: a session.idle event for
this session. -/
def isIdleFor (sid : JStr) (e : OcEvent) : Bool :=
  e.type == "session.idle".toList && e.sessionID == some sid

/-- Effect Stream.takeUntil on a finite stream: emits elements until the
predicate holds, including the first element satisfying it. -/
def takeUntilIncl {α : Type} (p : α → Bool) : List α → List α
  | [] => []
  | x :: xs => if p x then [x] else x :: takeUntilIncl p xs

/-- Embedding of streamSessionEvents (oc.ts lines 114-140) on the finite
list of events the subscription yields: filter to this session, then take
until (inclusive) the session.idle event for this session. -/
def streamSessionEvents (sid : JStr) (events : List OcEvent) : List OcEvent :=
  takeUntilIncl (isIdleFor sid) (events.filter (sessionFilter sid))

theorem takeUntilIncl_subset {α : Type} (p : α → Bool) (l : List α) :
    ∀ x ∈ takeUntilIncl p l, x ∈ l := by
  induction l with
  | nil => intro x hx; simp [takeUntilIncl] at hx
  | cons y ys ih =>
    intro x hx
    simp only [takeUntilIncl] at hx
    split at hx
    · simp only [List.mem_singleton] at hx
      subst hx
      exact List.mem_cons_self _ _
    · rcases List.mem_cons.mp hx with rfl | hx
      · exact List.mem_cons_self _ _
      · exact List.mem_cons_of_mem _ (ih x hx)

/-- C7: every event emitted from a session's stream either carries no
sessionID or carries this session's sessionID; events with a non-matching
sessionID are dropped by the filter. -/
theorem streamSessionEvents_session_scoped (sid : JStr) (events : List OcEvent)
    (e : OcEvent) (he : e ∈ streamSessionEvents sid events) :
    e.sessionID = none ∨ e.sessionID = some sid := by
  have hf : e ∈ events.filter (sessionFilter sid) :=
    takeUntilIncl_subset _ _ e he
  have hkeep : sessionFilter sid e = true := (List.mem_filter.mp hf).2
  unfold sessionFilter at hkeep
  cases hs : e.sessionID with
  | none => exact Or.inl rfl
  | some s =>
    rw [hs] at hkeep
    dsimp only at hkeep
    exact Or.inr (congrArg some (eq_of_beq hkeep))

/-- Witness for C7 at a concrete stream. -/
theorem streamSessionEvents_session_scoped_witness :
    (⟨"message.part.updated".toList, some "s1".toList⟩ : OcEvent).sessionID = none ∨
    (⟨"message.part.updated".toList, some "s1".toList⟩ : OcEvent).sessionID =
      some "s1".toList :=
  streamSessionEvents_session_scoped "s1".toList
    [⟨"message.part.updated".toList, some "s1".toList⟩,
     ⟨"message.part.updated".toList, some "s2".toList⟩]
    ⟨"message.part.updated".toList, some "s1".toList⟩ (by decide)

theorem takeUntilIncl_getLast_of_any {α : Type} (p : α → Bool) (l : List α)
    (h : l.any p = true) :
    ∃ x, (takeUntilIncl p l).getLast? = some x ∧ p x = true := by
  induction l with
  | nil => simp at h
  | cons y ys ih =>
    by_cases hp : p y = true
    · exact ⟨y, by simp [takeUntilIncl, hp], hp⟩
    · have hys : ys.any p = true := by
        simp only [List.any_cons, Bool.or_eq_true] at h
        rcases h with h | h
        · exact absurd h hp
        · exact h
      obtain ⟨x, hx, hpx⟩ := ih hys
      refine ⟨x, ?_, hpx⟩
      simp only [takeUntilIncl, if_neg hp]
      cases ht : takeUntilIncl p ys with
      | nil => rw [ht] at hx; simp at hx
      | cons z zs =>
        rw [ht] at hx
        rw [List.getLast?_cons_cons]
        exact hx

/-- C10: when the filtered stream contains a session.idle event for this
session (normal termination), the stream returned by streamSessionEvents
ends with that terminating event: the take-until cut-off includes the
matching session.idle rather than dropping it, and it is the final element. -/
theorem streamSessionEvents_ends_with_idle (sid : JStr) (events : List OcEvent)
    (h : (events.filter (sessionFilter sid)).any (isIdleFor sid) = true) :
    ∃ e, (streamSessionEvents sid events).getLast? = some e ∧
      e.type = "session.idle".toList ∧ e.sessionID = some sid := by
  obtain ⟨e, hlast, hpe⟩ := takeUntilIncl_getLast_of_any (isIdleFor sid) _ h
  simp only [isIdleFor, Bool.and_eq_true, beq_iff_eq] at hpe
  exact ⟨e, hlast, hpe.1, hpe.2⟩

/-- Witness for C10 at a concrete stream ending in session.idle. -/
theorem streamSessionEvents_ends_with_idle_witness :
    ∃ e, (streamSessionEvents "s1".toList
        [⟨"message.part.updated".toList, some "s1".toList⟩,
         ⟨"session.idle".toList, some "s1".toList⟩,
         ⟨"message.part.updated".toList, some "s1".toList⟩]).getLast? = some e ∧
      e.type = "session.idle".toList ∧ e.sessionID = some "s1".toList :=
  streamSessionEvents_ends_with_idle "s1".toList
    [⟨"message.part.updated".toList, some "s1".toList⟩,
     ⟨"session.idle".toList, some "s1".toList⟩,
     ⟨"message.part.updated".toList, some "s1".toList⟩] (by decide)
